import Mathlib

/-!
Verification of the e-commerce data-warehouse ETL pipeline
(`src/python/etl_pipeline.py`).

The development shallowly embeds the pipeline's pure logic:
Python string operations and dict semantics used by the region
normalizer, the cached-dimension lookup/insert discipline, the
per-row fact-loading admission algorithm and the batch loop with
its admitted/skipped counters.  Strings are modelled as `String`
(lists of characters), machine numbers as `Int`/`Rat`, `None`/NaN
as `Option`.
-/

/-! ## Python string primitives (ASCII fragment used by the pipeline) -/

/-- Python `str.strip()`: drop leading and trailing whitespace. -/
def pyStrip (s : String) : String :=
  String.mk (((s.data.dropWhile Char.isWhitespace).reverse.dropWhile Char.isWhitespace).reverse)

/-- Python `str.lower()` on the ASCII fragment. -/
def pyLower (s : String) : String :=
  String.mk (s.data.map Char.toLower)

/-- List-of-characters prefix test (building block of the substring test). -/
def pyPre : List Char → List Char → Bool
  | [], _ => true
  | _ :: _, [] => false
  | a :: as, b :: bs => a == b && pyPre as bs

/-- Character-list substring test; the empty list is a substring of everything,
exactly as Python's `"" in s` is `True`. -/
def pySub (a b : List Char) : Bool :=
  match b with
  | [] => a.isEmpty
  | _ :: t => pyPre a b || pySub a t

/-- Python `a in b` on strings (substring containment). -/
def pyIn (a b : String) : Bool := pySub a.data b.data

/-- Helper for Python `str.title()`: a letter is uppercased when the previous
character is not a letter, lowercased otherwise. -/
def pyTitleAux : Bool → List Char → List Char
  | _, [] => []
  | prevAlpha, c :: cs =>
    let c' := if c.isAlpha then (if prevAlpha then c.toLower else c.toUpper) else c
    c' :: pyTitleAux c.isAlpha cs

/-- Python `str.title()` on the ASCII fragment. -/
def pyTitle (s : String) : String := String.mk (pyTitleAux false s.data)

/-! ## Python dict model

A Python dict is insertion-ordered with unique keys; writing to an existing
key updates the value in place (the key keeps its original position).
We model a dict as an association list maintained by `dictInsert`. -/

/-- One dict assignment `d[k] = v`: update in place if the key exists,
append otherwise. -/
def dictInsert (d : List (String × String)) (k v : String) : List (String × String) :=
  if d.any (fun p => p.1 == k) then
    d.map (fun p => if p.1 == k then (k, v) else p)
  else
    d ++ [(k, v)]

/-- Build a dict from a list of pairs in order, later pairs overwriting
earlier ones (semantics of a dict display / `{**a, **b}` merge). -/
def dictOfList (l : List (String × String)) : List (String × String) :=
  l.foldl (fun d p => dictInsert d p.1 p.2) []

/-- Dict membership + subscript: `d[k]` when `k in d`, else `none`. -/
def dictGet (d : List (String × String)) (k : String) : Option String :=
  (d.find? (fun p => p.1 == k)).map (fun p => p.2)

/-- Value of the last pair carrying key `k` in a raw pair list: the value a
Python dict built from that list ends up holding for `k`. -/
def lastVal : List (String × String) → String → Option String
  | [], _ => none
  | p :: t, k =>
    match lastVal t k with
    | some v => some v
    | none => if p.1 == k then some p.2 else none

/-! ## pandas helpers -/

/-- Auxiliary for `pyUnique`, carrying the set of already seen values. -/
def pyUniqueAux (seen : List String) : List String → List String
  | [] => []
  | x :: xs =>
    if seen.contains x then pyUniqueAux seen xs
    else x :: pyUniqueAux (x :: seen) xs

/-- pandas `Series.unique()`: distinct values in first-occurrence order. -/
def pyUnique (l : List String) : List String := pyUniqueAux [] l

/-! ## Region extraction and normalization
(`extract_region_data`, lines 112-170, and `normalize_region_name`,
lines 172-201 of `etl_pipeline.py`). -/

/-- The fixed alias table `region_aliases` of `extract_region_data`
(lines 137-155), as the raw pair list of the dict display, in source order;
the key `europe central` appears twice exactly as in the source. -/
def region_aliases : List (String × String) :=
  [("europe central", "Europe Central"),
   ("east", "Europe East"),
   ("west", "Europe West"),
   ("north", "North America"),
   ("south", "South America"),
   ("asia", "Asia Pacific"),
   ("emea", "Europe Middle East Africa"),
   ("europe", "Europe Central"),
   ("america", "North America"),
   ("apj", "Asia Pacific"),
   ("north america", "North America"),
   ("south america", "South America"),
   ("europe west", "Europe West"),
   ("europe east", "Europe East"),
   ("europe central", "Europe Central"),
   ("asia pacific", "Asia Pacific"),
   ("europe middle east africa", "Europe Middle East Africa")]

/-- Canonical-region pairs: `{region.lower(): region for region in
df['region_name'].unique()}` where the column was stripped first
(lines 131-134). -/
def canonicalPairs (regionNames : List String) : List (String × String) :=
  (pyUnique (regionNames.map pyStrip)).map (fun r => (pyLower r, r))

/-- The merged mapping `{**{k.lower(): v for k, v in region_aliases.items()},
**canonical_regions}` of line 158: one dict built from the alias pairs
followed by the canonical pairs, so canonical values overwrite alias values
on shared keys. -/
def buildRegionMapping (regionNames : List String) : List (String × String) :=
  dictOfList (region_aliases.map (fun p => (pyLower p.1, p.2)) ++ canonicalPairs regionNames)

/-- Embedding of `normalize_region_name(region_name, region_mapping)`
(lines 172-201).  `none` models Python `None`/NaN.  The stages mirror the
source: falsy/NaN guard, exact match, substring scan in dict order,
title-case-in-values check, title-cased fallback.  The body never raises,
so the enclosing `try`/`except` of the source is dead and not modelled. -/
def normalize_region_name (region_name : Option String)
    (region_mapping : List (String × String)) : Option String :=
  match region_name with
  | none => none
  | some s =>
    if s = "" then none
    else
      let region_str := pyLower (pyStrip s)
      match dictGet region_mapping region_str with
      | some v => some v
      | none =>
        match region_mapping.find? (fun p => pyIn p.1 region_str || pyIn region_str p.1) with
        | some p => some p.2
        | none =>
          let title_case := pyTitle region_str
          if region_mapping.any (fun p => p.2 == title_case) then some title_case
          else some title_case

/-! ## Cached dimensions

`etl_pipeline.py` delegates dimension storage to pygrametl's
`CachedDimension` (lines 246-265), which is not part of this repository.
Its state and two operations are therefore modelled from the spec. -/

/-- Modelled from the spec: pygrametl's `CachedDimension` (spec section 4.2) is
missing from the sources.  "Each dimension owns a cache keyed by its
natural-key attribute(s)"; we keep the cache as an association list from
natural key to surrogate key together with the next surrogate key to assign.
pygrametl assigns surrogate keys 1, 2, 3, ... (the spec: "assigns the next
surrogate key for that dimension"), captured by the well-formedness
predicate `CachedDimension.WF` below. -/
structure CachedDimension where
  cache : List (String × Nat)
  nextKey : Nat
deriving DecidableEq

/-- Modelled from the spec: `lookup(natural_key_values) -> surrogate_key | null`
(spec section 4.2); a key that is absent yields `none`. -/
def pyLookup (d : CachedDimension) (k : String) : Option Nat :=
  (d.cache.find? (fun p => p.1 == k)).map (fun p => p.2)

/-- Modelled from the spec: `insert(full_row) -> surrogate_key`
(spec section 4.2): persists the row, assigns the next surrogate key and
updates the cache. -/
def pyInsert (d : CachedDimension) (k : String) : CachedDimension :=
  { cache := d.cache ++ [(k, d.nextKey)], nextKey := d.nextKey + 1 }

/-- Python truthiness of an optional surrogate key: `not x` is `True` for
`None` and for `0`. -/
def isFalsy : Option Nat → Bool
  | none => true
  | some 0 => true
  | some _ => false

/-- One iteration of the product/date/customer dimension-load loops
(lines 295-313): `if not dim.lookup(...): dim.insert(...)`. -/
def loadDimRowTruthy (d : CachedDimension) (k : String) : CachedDimension :=
  if isFalsy (pyLookup d k) then pyInsert d k else d

/-- One iteration of the region dimension-load loop (lines 316-319):
`if dim_region.lookup(...) is None: dim_region.insert(...)`. -/
def loadDimRowIsNone (d : CachedDimension) (k : String) : CachedDimension :=
  if (pyLookup d k).isNone then pyInsert d k else d

/-- Number of cached dimension rows whose natural key is `k`. -/
def countKey (d : CachedDimension) (k : String) : Nat :=
  d.cache.countP (fun p => p.1 == k)

/-- Well-formed dimension state: surrogate keys are positive, as assigned by
pygrametl (ids are `MAX(key)` + 1 starting from 1, so 0 never occurs). -/
def CachedDimension.WF (d : CachedDimension) : Prop :=
  1 ≤ d.nextKey ∧ ∀ p ∈ d.cache, 1 ≤ p.2

instance (d : CachedDimension) : Decidable d.WF := by
  unfold CachedDimension.WF; infer_instance

/-! ## Sales rows and transformation
(`transform_sales_data`, lines 206-212, `create_date_dimension`,
lines 222-232). -/

/-- A row of the extracted sales data (`extract_sales_data`, lines 81-98);
`discount` is nullable (NaN in the CSV), `region` is free text that can be
missing. -/
structure SalesRow where
  order_id : String
  product_id : String
  customer_id : String
  order_date : String
  quantity : Int
  unit_price : Rat
  discount : Option Rat
  region : Option String
deriving DecidableEq

/-- A transformed sales row: `transform_sales_data` adds `total_amount`.
Dates are kept as their (already day-granular) string form. -/
structure XRow where
  order_id : String
  product_id : String
  customer_id : String
  order_date : String
  quantity : Int
  unit_price : Rat
  discount : Option Rat
  region : Option String
  total_amount : Rat
deriving DecidableEq

/-- Rational multiplication written through `Rat.divInt` so that concrete
values evaluate (the library's own operations are sealed against
unfolding); `divInt` normalizes the fraction. -/
def qMul (a b : Rat) : Rat := Rat.divInt (a.num * b.num) ((a.den : Int) * (b.den : Int))

/-- Rational addition through `Rat.divInt`. -/
def qAdd (a b : Rat) : Rat :=
  Rat.divInt (a.num * (b.den : Int) + b.num * (a.den : Int)) ((a.den : Int) * (b.den : Int))

/-- Rational division through `Rat.divInt`. -/
def qDiv (a b : Rat) : Rat := Rat.divInt (a.num * (b.den : Int)) ((a.den : Int) * b.num)

/-- The rational value of an integer. -/
def intQ (n : Int) : Rat := Rat.divInt n 1

/-- Rounding to 2 decimals; Python's float `round` is modelled on rationals
(half-up at exact ties, which no claim depends on): the floor of
`q * 100 + 1/2` — computed as the floored division of numerator by
denominator — divided back by 100. -/
def round2 (q : Rat) : Rat :=
  qDiv (intQ (Int.fdiv (qAdd (qMul q (intQ 100)) (Rat.divInt 1 2)).num
    (((qAdd (qMul q (intQ 100)) (Rat.divInt 1 2)).den : Int)))) (intQ 100)

/-- Embedding of `transform_sales_data` on one row (lines 206-212):
`total_amount = (quantity * unit_price).round(2)`, `unit_price` rounded,
every other field — `discount` included — passed through unchanged. -/
def transform_sales_data (r : SalesRow) : XRow :=
  { order_id := r.order_id
    product_id := r.product_id
    customer_id := r.customer_id
    order_date := r.order_date
    quantity := r.quantity
    unit_price := round2 r.unit_price
    discount := r.discount
    region := r.region
    total_amount := round2 (qMul (intQ r.quantity) r.unit_price) }

/-- Embedding of `create_date_dimension` (lines 222-232) restricted to the
natural-key column: the date dimension holds one row per distinct
`order_date` value of the (transformed) sales data; the remaining columns
(day, month, ...) are derived from `full_date` and play no role in lookups. -/
def create_date_dimension (rows : List XRow) : List String :=
  pyUnique (rows.map (fun r => r.order_date))

/-- The date-dimension load loop (lines 302-305) applied to the keys produced
by `create_date_dimension`, starting from the warehouse's current state. -/
def loadDateDimension (d0 : CachedDimension) (rows : List XRow) : CachedDimension :=
  (create_date_dimension rows).foldl loadDimRowTruthy d0

/-! ## Fact loading
(the fact-loading loop of `run_etl_pipeline`, lines 322-358). -/

/-- Observable interactions of one fact-loop iteration with the region
normalizer and the dimension caches, recorded in source order so that the
short-circuit behaviour of the pre-check is visible in the embedding. -/
inductive EtlEvent where
  | normalizeCall
  | lookupProduct
  | lookupDate
  | lookupCustomer
  | lookupRegion
  | insertFact
deriving DecidableEq

/-- A fact row as assembled by the loop body (lines 335-348): the four
surrogate-key references followed by the four measures.  The key fields are
`Option` because the dict holds the raw lookup results when the
`None in fact_row.values()` check runs. -/
structure FactRow where
  product_key : Option Nat
  date_key : Option Nat
  customer_key : Option Nat
  region_key : Option Nat
  quantity : Int
  unit_price : Rat
  discount : Option Rat
  total_amount : Rat
deriving DecidableEq

/-- Outcome of one iteration of the fact loop for one transaction. -/
inductive RowResult where
  | admitted (fr : FactRow)
  | skipped
deriving DecidableEq

/-- The state the fact loop reads: `valid_products` (line 323), the region
mapping stored by `extract_region_data`, and the four dimension caches. -/
structure EtlCtx where
  valid_products : List String
  region_mapping : List (String × String)
  dim_product : CachedDimension
  dim_date : CachedDimension
  dim_customer : CachedDimension
  dim_region : CachedDimension

/-- Embedding of the body of the fact loop (lines 329-351) for one
transaction, together with the trace of normalizer/cache interactions:
product pre-check, region normalization, the four surrogate-key lookups,
the `None in fact_row.values()` rejection, measure propagation and insert.
A `none` region (line 339) looks up nothing and resolves to `none`, since
no dimension row has a null natural key. -/
def processRow (ctx : EtlCtx) (t : XRow) : RowResult × List EtlEvent :=
  if !(ctx.valid_products.contains t.product_id) then
    (.skipped, [])
  else
    let region := normalize_region_name t.region ctx.region_mapping
    let pk := pyLookup ctx.dim_product t.product_id
    let dk := pyLookup ctx.dim_date t.order_date
    let ck := pyLookup ctx.dim_customer t.customer_id
    let rk := region.bind (pyLookup ctx.dim_region)
    let events := [EtlEvent.normalizeCall, EtlEvent.lookupProduct, EtlEvent.lookupDate,
                   EtlEvent.lookupCustomer, EtlEvent.lookupRegion]
    if pk.isNone || dk.isNone || ck.isNone || rk.isNone then
      (.skipped, events)
    else
      (.admitted { product_key := pk, date_key := dk, customer_key := ck, region_key := rk,
                   quantity := t.quantity, unit_price := t.unit_price,
                   discount := t.discount, total_amount := t.total_amount },
       events ++ [EtlEvent.insertFact])

/-- Whether a row outcome is an admission. -/
def RowResult.isAdmitted : RowResult → Bool
  | .admitted _ => true
  | .skipped => false

/-- The running state of the fact loop: the two counters `fact_count` and
`skipped_records` (lines 324-325) and the fact rows persisted so far. -/
structure LoadStats where
  fact_count : Nat
  skipped_records : Nat
  persisted : List FactRow
deriving DecidableEq

/-- One iteration of the `try`/`except` body (lines 327-354) with the row
body abstracted as a fallible step: an exception anywhere in the body
(`.error`) lands in the `except` branch, which increments
`skipped_records` and continues (lines 352-354). -/
def factStepE (step : XRow → Except String RowResult) (st : LoadStats) (t : XRow) : LoadStats :=
  match step t with
  | .ok (.admitted fr) =>
    { st with fact_count := st.fact_count + 1, persisted := st.persisted ++ [fr] }
  | .ok .skipped => { st with skipped_records := st.skipped_records + 1 }
  | .error _ => { st with skipped_records := st.skipped_records + 1 }

/-- The fact loop (lines 327-354) over a batch, with the row body abstracted
as a fallible step. -/
def loadFactsE (step : XRow → Except String RowResult) (rows : List XRow) : LoadStats :=
  rows.foldl (factStepE step) { fact_count := 0, skipped_records := 0, persisted := [] }

/-- The concrete row body as a never-throwing step. -/
def pureStep (ctx : EtlCtx) (t : XRow) : Except String RowResult :=
  .ok (processRow ctx t).1

/-- The fact loop under the concrete row body, when no external exception
occurs. -/
def loadFacts (ctx : EtlCtx) (rows : List XRow) : LoadStats :=
  loadFactsE (pureStep ctx) rows

/-! ## Concrete sample states used to instantiate the theorems -/

/-- A sample warehouse context: one product P1, one date, one customer C1 and
one region, all with surrogate key 1 as pygrametl assigns on an empty table. -/
def ctxW : EtlCtx :=
  { valid_products := ["P1"]
    region_mapping := buildRegionMapping []
    dim_product := { cache := [("P1", 1)], nextKey := 2 }
    dim_date := { cache := [("2024-01-01", 1)], nextKey := 2 }
    dim_customer := { cache := [("C1", 1)], nextKey := 2 }
    dim_region := { cache := [("Europe Central", 1)], nextKey := 2 } }

/-- The raw (extracted) form of `txnOK`: a sales row with a null discount,
as produced by reading a CSV row whose discount cell is empty. -/
def srOK : SalesRow :=
  { order_id := "O1", product_id := "P1", customer_id := "C1",
    order_date := "2024-01-01", quantity := 2, unit_price := 10,
    discount := none, region := some "Europe Central" }

/-- A transaction that resolves completely in `ctxW`; its discount is null. -/
def txnOK : XRow :=
  { order_id := "O1", product_id := "P1", customer_id := "C1",
    order_date := "2024-01-01", quantity := 2, unit_price := 10,
    discount := none, region := some "Europe Central", total_amount := 20 }

/-- A transaction whose product is unknown to the run (pre-check rejection). -/
def txnBadProd : XRow :=
  { order_id := "O2", product_id := "P9", customer_id := "C1",
    order_date := "2024-01-01", quantity := 1, unit_price := 5,
    discount := some 0, region := some "Europe Central", total_amount := 5 }

/-- A transaction with a valid product but an unknown customer
(unresolved-reference rejection). -/
def txnBadCust : XRow :=
  { order_id := "O3", product_id := "P1", customer_id := "C9",
    order_date := "2024-01-01", quantity := 1, unit_price := 5,
    discount := some 0, region := some "Europe Central", total_amount := 5 }

/-- The fact row `processRow ctxW txnOK` admits. -/
def frOK : FactRow :=
  { product_key := some 1, date_key := some 1, customer_key := some 1,
    region_key := some 1, quantity := 2, unit_price := 10,
    discount := none, total_amount := 20 }

/-- A row body that throws on a marked transaction and skips every other:
used to exercise the `except` branch of the fact loop. -/
def throwingStep (t : XRow) : Except String RowResult :=
  if t.product_id = "BOOM" then .error "db failure" else .ok .skipped

/-- A transaction handed to `throwingStep` to make it throw. -/
def txnBoom : XRow :=
  { order_id := "O4", product_id := "BOOM", customer_id := "C1",
    order_date := "2024-01-01", quantity := 1, unit_price := 5,
    discount := some 0, region := none, total_amount := 5 }

/-! ## Dimension-cache lemmas -/

theorem pyLookup_eq_none_iff (d : CachedDimension) (k : String) :
    pyLookup d k = none ↔ ∀ p ∈ d.cache, p.1 ≠ k := by
  unfold pyLookup
  rw [Option.map_eq_none', List.find?_eq_none]
  simp

theorem pyLookup_insert (d : CachedDimension) (k k' : String) :
    pyLookup (pyInsert d k) k' =
      (pyLookup d k').or (if k' = k then some d.nextKey else none) := by
  unfold pyLookup pyInsert
  simp only [List.find?_append]
  rcases h : d.cache.find? (fun p => p.1 == k') with _ | p
  · by_cases hk : k' = k
    · subst hk; simp [h, List.find?]
    · have : (k == k') = false := by simp [Ne.symm hk]
      simp [h, List.find?, this, hk]
  · simp [h]

theorem pyLookup_loadDimRowTruthy_isSome (d : CachedDimension) (k : String) :
    (pyLookup (loadDimRowTruthy d k) k).isSome := by
  unfold loadDimRowTruthy
  rcases h : pyLookup d k with _ | v
  · simp [isFalsy, h, pyLookup_insert]
  · rcases v with _ | n
    · simp [isFalsy, h, pyLookup_insert]
    · simp [isFalsy, h]

theorem pyLookup_loadDimRowTruthy_mono (d : CachedDimension) (k k' : String)
    (h : (pyLookup d k).isSome) : (pyLookup (loadDimRowTruthy d k') k).isSome := by
  unfold loadDimRowTruthy
  split
  · rw [pyLookup_insert]
    rcases hh : pyLookup d k with _ | v
    · rw [hh] at h; simp at h
    · simp [hh]
  · exact h

theorem pyLookup_foldl_mono (l : List String) (d : CachedDimension) (k : String)
    (h : (pyLookup d k).isSome) : (pyLookup (l.foldl loadDimRowTruthy d) k).isSome := by
  induction l generalizing d with
  | nil => exact h
  | cons x xs ih => exact ih _ (pyLookup_loadDimRowTruthy_mono _ _ _ h)

theorem pyLookup_foldl_isSome_of_mem (l : List String) (d : CachedDimension) (k : String)
    (h : k ∈ l) : (pyLookup (l.foldl loadDimRowTruthy d) k).isSome := by
  induction l generalizing d with
  | nil => cases h
  | cons x xs ih =>
    rcases List.mem_cons.mp h with rfl | hmem
    · exact pyLookup_foldl_mono xs _ k (pyLookup_loadDimRowTruthy_isSome d k)
    · exact ih _ hmem

theorem pyLookup_pos_of_WF (d : CachedDimension) (k : String) (h : d.WF) (v : Nat)
    (hv : pyLookup d k = some v) : 1 ≤ v := by
  unfold pyLookup at hv
  rcases hmap : d.cache.find? (fun p => p.1 == k) with _ | p
  · rw [hmap] at hv; simp at hv
  · rw [hmap] at hv; simp at hv
    exact hv ▸ h.2 p (List.mem_of_find?_eq_some hmap)

theorem countKey_fresh_insert (d : CachedDimension) (k : String)
    (h : pyLookup d k = none) : countKey (pyInsert d k) k = 1 := by
  unfold countKey pyInsert
  simp only [List.countP_append]
  have h0 : d.cache.countP (fun p => p.1 == k) = 0 := by
    rw [List.countP_eq_zero]
    intro p hp
    simpa using (pyLookup_eq_none_iff d k).mp h p hp
  simp [h0, List.countP_cons]

/-- Claim C1: for every dimension and every natural key K, the
lookup-then-insert load step run twice with the same K yields the same
surrogate key both times and inserts exactly one dimension row for K, and
re-running against the same dimension state adds no duplicate row.  This
holds for both load-step variants of the source (`if not lookup(...)` for
product/date/customer and `if lookup(...) is None` for region), for every
well-formed dimension state (pygrametl surrogate keys are positive). -/
theorem dim_load_exactly_once (d : CachedDimension) (k : String) (h : d.WF) :
    loadDimRowTruthy (loadDimRowTruthy d k) k = loadDimRowTruthy d k ∧
    pyLookup (loadDimRowTruthy (loadDimRowTruthy d k) k) k
      = pyLookup (loadDimRowTruthy d k) k ∧
    (pyLookup d k = none → countKey (loadDimRowTruthy d k) k = 1) ∧
    loadDimRowIsNone (loadDimRowIsNone d k) k = loadDimRowIsNone d k ∧
    (pyLookup d k = none → countKey (loadDimRowIsNone d k) k = 1) := by
  have hidem : loadDimRowTruthy (loadDimRowTruthy d k) k = loadDimRowTruthy d k := by
    rcases hh : pyLookup d k with _ | v
    · have h1 : loadDimRowTruthy d k = pyInsert d k := by
        unfold loadDimRowTruthy; simp [hh, isFalsy]
      have h2 : pyLookup (pyInsert d k) k = some d.nextKey := by
        rw [pyLookup_insert, hh]; simp
      rw [h1]
      unfold loadDimRowTruthy
      rcases hn : d.nextKey with _ | m
      · exact absurd (hn ▸ h.1) (by simp)
      · simp [h2, hn, isFalsy]
    · have hv := pyLookup_pos_of_WF d k h v hh
      rcases v with _ | m
      · exact absurd hv (by simp)
      · have h1 : loadDimRowTruthy d k = d := by
          unfold loadDimRowTruthy; simp [hh, isFalsy]
        rw [h1, h1]
  have hidem2 : loadDimRowIsNone (loadDimRowIsNone d k) k = loadDimRowIsNone d k := by
    rcases hh : pyLookup d k with _ | v
    · have h1 : loadDimRowIsNone d k = pyInsert d k := by
        unfold loadDimRowIsNone; simp [hh]
      have h2 : pyLookup (pyInsert d k) k = some d.nextKey := by
        rw [pyLookup_insert, hh]; simp
      rw [h1]
      unfold loadDimRowIsNone
      simp [h2]
    · have h1 : loadDimRowIsNone d k = d := by
        unfold loadDimRowIsNone; simp [hh]
      rw [h1, h1]
  refine ⟨hidem, by rw [hidem], ?_, hidem2, ?_⟩
  · intro hh
    have h1 : loadDimRowTruthy d k = pyInsert d k := by
      unfold loadDimRowTruthy; simp [hh, isFalsy]
    rw [h1]; exact countKey_fresh_insert d k hh
  · intro hh
    have h1 : loadDimRowIsNone d k = pyInsert d k := by
      unfold loadDimRowIsNone; simp [hh]
    rw [h1]; exact countKey_fresh_insert d k hh

/-- Witness for claim C1 at a concrete well-formed dimension state. -/
theorem dim_load_exactly_once_witness :
    loadDimRowTruthy (loadDimRowTruthy ⟨[("P1", 1)], 2⟩ "P2") "P2"
        = loadDimRowTruthy ⟨[("P1", 1)], 2⟩ "P2" ∧
    countKey (loadDimRowTruthy ⟨[("P1", 1)], 2⟩ "P2") "P2" = 1 := by
  have h := dim_load_exactly_once ⟨[("P1", 1)], 2⟩ "P2" (by decide)
  exact ⟨h.1, h.2.2.1 (by decide)⟩

/-! ## Fact-loader admission lemmas -/

theorem processRow_eq (ctx : EtlCtx) (t : XRow) :
    processRow ctx t =
      if !(ctx.valid_products.contains t.product_id) then (RowResult.skipped, [])
      else if ((pyLookup ctx.dim_product t.product_id).isNone
          || (pyLookup ctx.dim_date t.order_date).isNone
          || (pyLookup ctx.dim_customer t.customer_id).isNone
          || ((normalize_region_name t.region ctx.region_mapping).bind
                (pyLookup ctx.dim_region)).isNone) then
        (RowResult.skipped,
         [EtlEvent.normalizeCall, EtlEvent.lookupProduct, EtlEvent.lookupDate,
          EtlEvent.lookupCustomer, EtlEvent.lookupRegion])
      else
        (RowResult.admitted
          { product_key := pyLookup ctx.dim_product t.product_id,
            date_key := pyLookup ctx.dim_date t.order_date,
            customer_key := pyLookup ctx.dim_customer t.customer_id,
            region_key := (normalize_region_name t.region ctx.region_mapping).bind
              (pyLookup ctx.dim_region),
            quantity := t.quantity, unit_price := t.unit_price,
            discount := t.discount, total_amount := t.total_amount },
         [EtlEvent.normalizeCall, EtlEvent.lookupProduct, EtlEvent.lookupDate,
          EtlEvent.lookupCustomer, EtlEvent.lookupRegion] ++ [EtlEvent.insertFact]) := rfl

/-- Claim C2: for every incoming transaction that passes the product
pre-check, if any of the four resolved surrogate keys is null the row is
skipped — the skip counter grows and nothing is persisted — and a fact row
is admitted (hence persisted, appended to the fact table) only when all
four keys resolved to non-null values, which the persisted row then
carries. -/
theorem fact_no_partial_persist (ctx : EtlCtx) (t : XRow)
    (hvalid : ctx.valid_products.contains t.product_id = true) :
    (((pyLookup ctx.dim_product t.product_id).isNone
        || (pyLookup ctx.dim_date t.order_date).isNone
        || (pyLookup ctx.dim_customer t.customer_id).isNone
        || ((normalize_region_name t.region ctx.region_mapping).bind
              (pyLookup ctx.dim_region)).isNone) = true →
      (processRow ctx t).1 = RowResult.skipped ∧
      ∀ st : LoadStats,
        (factStepE (pureStep ctx) st t).persisted = st.persisted ∧
        (factStepE (pureStep ctx) st t).fact_count = st.fact_count ∧
        (factStepE (pureStep ctx) st t).skipped_records = st.skipped_records + 1) ∧
    ∀ fr : FactRow, (processRow ctx t).1 = RowResult.admitted fr →
      fr.product_key.isSome = true ∧ fr.date_key.isSome = true ∧
      fr.customer_key.isSome = true ∧ fr.region_key.isSome = true ∧
      ∀ st : LoadStats,
        (factStepE (pureStep ctx) st t).persisted = st.persisted ++ [fr] := by
  constructor
  · intro hnull
    have hp : (processRow ctx t).1 = RowResult.skipped := by
      rw [processRow_eq, hvalid, if_neg (by simp : ¬((!true) = true)), if_pos hnull]
    refine ⟨hp, fun st => ?_⟩
    unfold factStepE pureStep
    rw [hp]
    exact ⟨rfl, rfl, rfl⟩
  · intro fr hfr
    have hfr0 := hfr
    rw [processRow_eq, hvalid, if_neg (by simp : ¬((!true) = true))] at hfr
    by_cases hc : ((pyLookup ctx.dim_product t.product_id).isNone
        || (pyLookup ctx.dim_date t.order_date).isNone
        || (pyLookup ctx.dim_customer t.customer_id).isNone
        || ((normalize_region_name t.region ctx.region_mapping).bind
              (pyLookup ctx.dim_region)).isNone) = true
    · rw [if_pos hc] at hfr
      exact absurd hfr (by simp)
    · rw [if_neg hc] at hfr
      simp only [Bool.not_eq_true, Bool.or_eq_false_iff] at hc
      obtain ⟨⟨⟨h1, h2⟩, h3⟩, h4⟩ := hc
      rw [Option.isNone_eq_false_iff] at h1 h2 h3 h4
      have hrec : RowResult.admitted
          { product_key := pyLookup ctx.dim_product t.product_id,
            date_key := pyLookup ctx.dim_date t.order_date,
            customer_key := pyLookup ctx.dim_customer t.customer_id,
            region_key := (normalize_region_name t.region ctx.region_mapping).bind
              (pyLookup ctx.dim_region),
            quantity := t.quantity, unit_price := t.unit_price,
            discount := t.discount, total_amount := t.total_amount }
          = RowResult.admitted fr := hfr
      injection hrec with hrec
      refine ⟨?_, ?_, ?_, ?_, fun st => ?_⟩
      · rw [← hrec]; exact h1
      · rw [← hrec]; exact h2
      · rw [← hrec]; exact h3
      · rw [← hrec]; exact h4
      · unfold factStepE pureStep
        rw [hfr0]

/-- Witness for claim C2: in the sample context, a valid-product
transaction with an unknown customer is skipped without persisting, and an
admitted transaction carries four non-null keys. -/
theorem fact_no_partial_persist_witness :
    (processRow ctxW txnBadCust).1 = RowResult.skipped ∧
    (factStepE (pureStep ctxW) ⟨0, 0, []⟩ txnBadCust).persisted = [] ∧
    frOK.product_key.isSome = true ∧
    (factStepE (pureStep ctxW) ⟨0, 0, []⟩ txnOK).persisted = [] ++ [frOK] := by
  have h := fact_no_partial_persist ctxW txnBadCust (by decide)
  have h1 := h.1 (by decide)
  have h' := fact_no_partial_persist ctxW txnOK (by decide)
  have h2 := h'.2 frOK (by decide)
  exact ⟨h1.1, (h1.2 ⟨0, 0, []⟩).1, h2.1, h2.2.2.2.2 ⟨0, 0, []⟩⟩

/-- Claim C3: a transaction whose product natural key is not among the
product keys loaded this run is rejected by the pre-check before any region
normalization or dimension lookup happens — its interaction trace is empty,
so the dimension caches are untouched — and the row is counted as
skipped. -/
theorem invalid_product_short_circuit (ctx : EtlCtx) (t : XRow)
    (h : ctx.valid_products.contains t.product_id = false) :
    processRow ctx t = (RowResult.skipped, []) ∧
    ∀ st : LoadStats,
      (factStepE (pureStep ctx) st t).skipped_records = st.skipped_records + 1 ∧
      (factStepE (pureStep ctx) st t).fact_count = st.fact_count ∧
      (factStepE (pureStep ctx) st t).persisted = st.persisted := by
  have hp : processRow ctx t = (RowResult.skipped, []) := by
    rw [processRow_eq, h]
    rfl
  refine ⟨hp, fun st => ?_⟩
  unfold factStepE pureStep
  rw [hp]
  exact ⟨rfl, rfl, rfl⟩

/-- Witness for claim C3 at the unknown-product transaction. -/
theorem invalid_product_short_circuit_witness :
    processRow ctxW txnBadProd = (RowResult.skipped, []) ∧
    (factStepE (pureStep ctxW) ⟨0, 0, []⟩ txnBadProd).skipped_records = 1 := by
  have h := invalid_product_short_circuit ctxW txnBadProd (by decide)
  exact ⟨h.1, (h.2 ⟨0, 0, []⟩).1⟩

/-! ## Batch-loop lemmas -/

theorem loadFactsE_shift (step : XRow → Except String RowResult) (st : LoadStats)
    (rows : List XRow) :
    (rows.foldl (factStepE step) st).fact_count
        = st.fact_count + (loadFactsE step rows).fact_count ∧
    (rows.foldl (factStepE step) st).skipped_records
        = st.skipped_records + (loadFactsE step rows).skipped_records ∧
    (rows.foldl (factStepE step) st).persisted
        = st.persisted ++ (loadFactsE step rows).persisted := by
  induction rows generalizing st with
  | nil => simp [loadFactsE]
  | cons t rows ih =>
    have hdef : loadFactsE step (t :: rows)
        = rows.foldl (factStepE step) (factStepE step ⟨0, 0, []⟩ t) := rfl
    obtain ⟨i1, i2, i3⟩ := ih (factStepE step st t)
    obtain ⟨j1, j2, j3⟩ := ih (factStepE step ⟨0, 0, []⟩ t)
    rw [List.foldl_cons, hdef]
    refine ⟨?_, ?_, ?_⟩
    · rw [i1, j1]
      rcases hstep : step t with e | r
      · simp [factStepE, hstep]
      · rcases r with fr | _ <;> (simp [factStepE, hstep]; try omega)
    · rw [i2, j2]
      rcases hstep : step t with e | r
      · simp [factStepE, hstep]; omega
      · rcases r with fr | _ <;> (simp [factStepE, hstep]; try omega)
    · rw [i3, j3]
      rcases hstep : step t with e | r
      · simp [factStepE, hstep]
      · rcases r with fr | _ <;> simp [factStepE, hstep]

theorem loadFactsE_cover (step : XRow → Except String RowResult) (rows : List XRow) :
    (loadFactsE step rows).fact_count + (loadFactsE step rows).skipped_records
      = rows.length := by
  induction rows with
  | nil => rfl
  | cons t rows ih =>
    have hdef : loadFactsE step (t :: rows)
        = rows.foldl (factStepE step) (factStepE step ⟨0, 0, []⟩ t) := rfl
    obtain ⟨j1, j2, -⟩ := loadFactsE_shift step (factStepE step ⟨0, 0, []⟩ t) rows
    rw [hdef, j1, j2]
    rcases hstep : step t with e | r
    · simp [factStepE, hstep]; omega
    · rcases r with fr | _
      · simp [factStepE, hstep]; omega
      · simp [factStepE, hstep]; omega

/-- Claim C4: an exception raised anywhere in the per-row fact-loading body
(modelled as an arbitrary fallible row step returning `.error`) is caught at
the per-row boundary: the erroring row is counted as skipped, nothing is
persisted for it, the rest of the batch is processed exactly as if the row
were absent, and the admitted/skipped counters still cover every row of the
batch. -/
theorem per_row_error_caught (step : XRow → Except String RowResult)
    (pre post : List XRow) (t : XRow) (e : String) (h : step t = .error e) :
    (loadFactsE step (pre ++ t :: post)).fact_count
        = (loadFactsE step (pre ++ post)).fact_count ∧
    (loadFactsE step (pre ++ t :: post)).skipped_records
        = (loadFactsE step (pre ++ post)).skipped_records + 1 ∧
    (loadFactsE step (pre ++ t :: post)).persisted
        = (loadFactsE step (pre ++ post)).persisted ∧
    (loadFactsE step (pre ++ t :: post)).fact_count
        + (loadFactsE step (pre ++ t :: post)).skipped_records
        = (pre ++ t :: post).length := by
  have hsplit : ∀ l₂ : List XRow, loadFactsE step (pre ++ l₂)
      = l₂.foldl (factStepE step) (loadFactsE step pre) := by
    intro l₂
    unfold loadFactsE
    rw [List.foldl_append]
  have ht : factStepE step (loadFactsE step pre) t
      = { fact_count := (loadFactsE step pre).fact_count,
          skipped_records := (loadFactsE step pre).skipped_records + 1,
          persisted := (loadFactsE step pre).persisted } := by
    unfold factStepE
    rw [h]
  obtain ⟨a1, a2, a3⟩ := loadFactsE_shift step
    (factStepE step (loadFactsE step pre) t) post
  obtain ⟨b1, b2, b3⟩ := loadFactsE_shift step (loadFactsE step pre) post
  have hl : loadFactsE step (pre ++ t :: post)
      = post.foldl (factStepE step) (factStepE step (loadFactsE step pre) t) := by
    rw [hsplit (t :: post), List.foldl_cons]
  have hr : loadFactsE step (pre ++ post)
      = post.foldl (factStepE step) (loadFactsE step pre) := hsplit post
  refine ⟨?_, ?_, ?_, ?_⟩
  · rw [hl, hr, a1, b1, ht]
  · rw [hl, hr, a2, b2, ht]
    simp
    try omega
  · rw [hl, hr, a3, b3, ht]
  · rw [loadFactsE_cover]

/-- Witness for claim C4: a throwing row between two others is converted
into one extra skip and does not disturb the rest of the batch. -/
theorem per_row_error_caught_witness :
    (loadFactsE throwingStep [txnBoom, txnOK]).fact_count
        = (loadFactsE throwingStep [txnOK]).fact_count ∧
    (loadFactsE throwingStep [txnBoom, txnOK]).skipped_records
        = (loadFactsE throwingStep [txnOK]).skipped_records + 1 ∧
    (loadFactsE throwingStep [txnBoom, txnOK]).persisted
        = (loadFactsE throwingStep [txnOK]).persisted ∧
    (loadFactsE throwingStep [txnBoom, txnOK]).fact_count
        + (loadFactsE throwingStep [txnBoom, txnOK]).skipped_records = 2 :=
  per_row_error_caught throwingStep [] [txnOK] txnBoom "db failure" (by rfl)

/-! ## pyUnique lemmas -/

theorem mem_pyUniqueAux_of_mem (l : List String) (seen : List String) (c : String)
    (hc : c ∈ l) (hs : c ∉ seen) : c ∈ pyUniqueAux seen l := by
  induction l generalizing seen with
  | nil => cases hc
  | cons x xs ih =>
    unfold pyUniqueAux
    by_cases hx : seen.contains x
    · have hx' : x ∈ seen := List.mem_of_elem_eq_true hx
      rcases List.mem_cons.mp hc with rfl | hmem
      · exact absurd hx' hs
      · simpa [hx'] using ih seen hmem hs
    · have hx' : x ∉ seen := fun hm => hx (List.elem_iff.mpr hm)
      by_cases hcx : c = x
      · subst hcx; simp [hx']
      · rcases List.mem_cons.mp hc with rfl | hmem
        · exact absurd rfl hcx
        · have hs' : c ∉ x :: seen := by
            simp [hcx, hs]
          simpa [hx'] using List.mem_cons_of_mem x (ih (x :: seen) hmem hs')

theorem mem_of_mem_pyUniqueAux (l : List String) (seen : List String) (c : String)
    (hc : c ∈ pyUniqueAux seen l) : c ∈ l := by
  induction l generalizing seen with
  | nil => simp [pyUniqueAux] at hc
  | cons x xs ih =>
    unfold pyUniqueAux at hc
    by_cases hx : seen.contains x
    · rw [if_pos hx] at hc
      exact List.mem_cons_of_mem _ (ih _ hc)
    · rw [if_neg hx] at hc
      rcases List.mem_cons.mp hc with rfl | h
      · exact List.mem_cons_self _ _
      · exact List.mem_cons_of_mem _ (ih _ h)

theorem mem_pyUnique_iff (l : List String) (c : String) : c ∈ pyUnique l ↔ c ∈ l :=
  ⟨mem_of_mem_pyUniqueAux l [] c, fun h => mem_pyUniqueAux_of_mem l [] c h (by simp)⟩

/-- Claim C10: for every transaction of the batch, the date-dimension lookup
on its order_date succeeds, because the date dimension is built from exactly
the distinct order_date values of the same (transformed) batch; hence a
transaction that reaches surrogate-key resolution and is still skipped owes
the rejection to one of the other three references, never to its date. -/
theorem date_lookup_never_misses (d0 : CachedDimension) (rows : List XRow) (t : XRow)
    (ht : t ∈ rows) :
    (pyLookup (loadDateDimension d0 rows) t.order_date).isSome = true ∧
    ∀ ctx : EtlCtx, ctx.dim_date = loadDateDimension d0 rows →
      ctx.valid_products.contains t.product_id = true →
      (processRow ctx t).1 = RowResult.skipped →
      ((pyLookup ctx.dim_product t.product_id).isNone = true ∨
       (pyLookup ctx.dim_customer t.customer_id).isNone = true ∨
       ((normalize_region_name t.region ctx.region_mapping).bind
          (pyLookup ctx.dim_region)).isNone = true) := by
  have hdate : (pyLookup (loadDateDimension d0 rows) t.order_date).isSome = true := by
    unfold loadDateDimension
    refine pyLookup_foldl_isSome_of_mem _ _ _ ?_
    rw [create_date_dimension, mem_pyUnique_iff]
    exact List.mem_map_of_mem _ ht
  refine ⟨hdate, fun ctx hctx hvalid hskip => ?_⟩
  rw [processRow_eq, hvalid, if_neg (by simp : ¬((!true) = true))] at hskip
  by_cases hc : ((pyLookup ctx.dim_product t.product_id).isNone
      || (pyLookup ctx.dim_date t.order_date).isNone
      || (pyLookup ctx.dim_customer t.customer_id).isNone
      || ((normalize_region_name t.region ctx.region_mapping).bind
            (pyLookup ctx.dim_region)).isNone) = true
  · simp only [Bool.or_eq_true] at hc
    rcases hc with ((h1 | h2) | h3) | h4
    · exact Or.inl h1
    · rw [hctx, Option.isNone_iff_eq_none] at h2
      exact absurd hdate (by simp [h2])
    · exact Or.inr (Or.inl h3)
    · exact Or.inr (Or.inr h4)
  · rw [if_neg hc] at hskip
    exact absurd hskip (by simp)

/-- Witness for claim C10 at a concrete one-row batch. -/
theorem date_lookup_never_misses_witness :
    (pyLookup (loadDateDimension ⟨[], 1⟩ [txnOK]) txnOK.order_date).isSome = true :=
  (date_lookup_never_misses ⟨[], 1⟩ [txnOK] txnOK (by simp)).1

/-! ## Python dict lemmas -/

theorem lastVal_append (a b : List (String × String)) (k : String) :
    lastVal (a ++ b) k =
      match lastVal b k with
      | some v => some v
      | none => lastVal a k := by
  induction a with
  | nil => cases h : lastVal b k <;> simp [lastVal, h]
  | cons p t ih =>
    show (match lastVal (t ++ b) k with
          | some v => some v
          | none => if p.1 == k then some p.2 else none) = _
    rw [ih]
    cases h : lastVal b k <;> simp [lastVal]

theorem lastVal_eq_none (l : List (String × String)) (k : String)
    (h : ∀ p ∈ l, p.1 ≠ k) : lastVal l k = none := by
  induction l with
  | nil => rfl
  | cons p t ih =>
    have hp : (p.1 == k) = false := by
      simpa using h p (List.mem_cons_self p t)
    have ht := ih (fun q hq => h q (List.mem_cons_of_mem _ hq))
    simp [lastVal, ht, hp]

theorem find?_update_self (d : List (String × String)) (k v : String) :
    (d.map (fun p => if p.1 == k then (k, v) else p)).find? (fun p => p.1 == k)
      = if d.any (fun p => p.1 == k) then some (k, v) else none := by
  induction d with
  | nil => rfl
  | cons p t ih =>
    rw [List.map_cons]
    by_cases hp : p.1 = k
    · have hmap : (if (p.1 == k) = true then (k, v) else p) = (k, v) := by simp [hp]
      rw [hmap, List.find?_cons_of_pos _ (by simp), List.any_cons]
      have hb : (p.1 == k) = true := by simp [hp]
      rw [hb, Bool.true_or, if_pos rfl]
    · have hmap : (if (p.1 == k) = true then (k, v) else p) = p := by simp [hp]
      rw [hmap, List.find?_cons_of_neg _ (by simp [hp]), ih, List.any_cons]
      have hb : (p.1 == k) = false := by simp [hp]
      rw [hb, Bool.false_or]

theorem find?_update_other (d : List (String × String)) (k v k' : String) (hne : k' ≠ k) :
    (d.map (fun p => if p.1 == k then (k, v) else p)).find? (fun p => p.1 == k')
      = d.find? (fun p => p.1 == k') := by
  induction d with
  | nil => rfl
  | cons p t ih =>
    rw [List.map_cons]
    by_cases hp : p.1 = k
    · have hmap : (if (p.1 == k) = true then (k, v) else p) = (k, v) := by simp [hp]
      rw [hmap, List.find?_cons_of_neg _ (by simp [Ne.symm hne]), ih,
        List.find?_cons_of_neg _ (by simp [hp, Ne.symm hne])]
    · have hmap : (if (p.1 == k) = true then (k, v) else p) = p := by simp [hp]
      rw [hmap]
      by_cases hq : p.1 = k'
      · rw [List.find?_cons_of_pos _ (by simp [hq]), List.find?_cons_of_pos _ (by simp [hq])]
      · rw [List.find?_cons_of_neg _ (by simp [hq]), ih,
          List.find?_cons_of_neg _ (by simp [hq])]

theorem dictGet_dictInsert (d : List (String × String)) (k v k' : String) :
    dictGet (dictInsert d k v) k' = if k' = k then some v else dictGet d k' := by
  unfold dictGet dictInsert
  by_cases hany : d.any (fun p => p.1 == k) = true
  · rw [if_pos hany]
    by_cases hk : k' = k
    · subst hk
      rw [find?_update_self, if_pos hany, if_pos rfl]
      rfl
    · rw [find?_update_other d k v k' hk, if_neg hk]
  · rw [if_neg hany, List.find?_append]
    by_cases hk : k' = k
    · subst hk
      have h0 : d.find? (fun p => p.1 == k') = none := by
        rw [List.find?_eq_none]
        intro x hx hbad
        exact hany (List.any_eq_true.mpr ⟨x, hx, hbad⟩)
      rw [h0, if_pos rfl]
      simp [List.find?_cons]
    · have h1 : List.find? (fun p => p.1 == k') [(k, v)] = none := by
        simp [List.find?_cons, Ne.symm hk]
      rw [h1, if_neg hk]
      cases d.find? (fun p => p.1 == k') <;> rfl

theorem lastVal_concat (l : List (String × String)) (p : String × String) (k : String) :
    lastVal (l ++ [p]) k = if p.1 == k then some p.2 else lastVal l k := by
  rw [lastVal_append]
  by_cases hp : p.1 = k
  · simp [lastVal, hp]
  · simp [lastVal, hp]

theorem dictGet_dictOfList (l : List (String × String)) (k : String) :
    dictGet (dictOfList l) k = lastVal l k := by
  induction l using List.reverseRecOn with
  | nil => rfl
  | append_singleton l p ih =>
    have hfold : dictOfList (l ++ [p]) = dictInsert (dictOfList l) p.1 p.2 := by
      unfold dictOfList
      rw [List.foldl_append]
      rfl
    rw [hfold, dictGet_dictInsert, lastVal_concat, ih]
    by_cases hk : k = p.1
    · simp [hk]
    · simp [hk, Ne.symm hk]

/-! ## Region-normalizer lemmas -/

theorem normalize_some_eq (s : String) (m : List (String × String)) :
    normalize_region_name (some s) m =
      if s = "" then none
      else
        match dictGet m (pyLower (pyStrip s)) with
        | some v => some v
        | none =>
          match m.find? (fun p => pyIn p.1 (pyLower (pyStrip s))
              || pyIn (pyLower (pyStrip s)) p.1) with
          | some p => some p.2
          | none =>
            if m.any (fun p => p.2 == pyTitle (pyLower (pyStrip s)))
              then some (pyTitle (pyLower (pyStrip s)))
              else some (pyTitle (pyLower (pyStrip s))) := rfl

theorem lastVal_map_lower (L : List String) (c : String)
    (hc : c ∈ L) (huniq : ∀ x ∈ L, pyLower x = pyLower c → x = c) :
    lastVal (L.map (fun r => (pyLower r, r))) (pyLower c) = some c := by
  induction L with
  | nil => cases hc
  | cons x xs ih =>
    rw [List.map_cons]
    by_cases hcx : c ∈ xs
    · have hrec := ih hcx (fun y hy hl => huniq y (List.mem_cons_of_mem _ hy) hl)
      simp only [lastVal]
      rw [hrec]
    · have hxc : x = c := by
        rcases List.mem_cons.mp hc with rfl | h
        · rfl
        · exact absurd h hcx
      subst hxc
      have hnone : lastVal (xs.map (fun r => (pyLower r, r))) (pyLower x) = none := by
        apply lastVal_eq_none
        intro p hp
        rcases List.mem_map.mp hp with ⟨r, hr, rfl⟩
        intro hbad
        exact hcx (huniq r (List.mem_cons_of_mem _ hr) hbad ▸ hr)
      simp only [lastVal]
      rw [hnone]
      simp

theorem lastVal_canonicalPairs (names : List String) (c : String)
    (hc : c ∈ names.map pyStrip)
    (huniq : ∀ x ∈ names.map pyStrip, pyLower x = pyLower c → x = c) :
    lastVal (canonicalPairs names) (pyLower c) = some c := by
  unfold canonicalPairs
  exact lastVal_map_lower _ c ((mem_pyUnique_iff _ _).mpr hc)
    (fun x hx => huniq x ((mem_pyUnique_iff _ _).mp hx))

theorem lastVal_canonicalPairs_none (names : List String) (k' : String)
    (hsh : ∀ x ∈ names.map pyStrip, pyLower x ≠ k') :
    lastVal (canonicalPairs names) k' = none := by
  apply lastVal_eq_none
  intro p hp
  unfold canonicalPairs at hp
  rcases List.mem_map.mp hp with ⟨r, hr, rfl⟩
  exact hsh r (mem_of_mem_pyUniqueAux _ _ _ hr)

/-- Claim C6: a region string present verbatim (up to case and surrounding
whitespace) in the canonical set — the distinct stripped region_name values
of the reference data — normalizes to exactly that canonical value: the
exact-match stage hits the case-insensitive index, in which canonical
values take precedence over aliases because the dict merge writes canonical
entries after the alias entries. -/
theorem canonical_region_identity (names : List String) (s c : String)
    (hs : s ≠ "")
    (hc : c ∈ names.map pyStrip)
    (huniq : ∀ x ∈ names.map pyStrip, pyLower x = pyLower c → x = c)
    (hmatch : pyLower (pyStrip s) = pyLower c) :
    normalize_region_name (some s) (buildRegionMapping names) = some c := by
  have hget : dictGet (buildRegionMapping names) (pyLower (pyStrip s)) = some c := by
    rw [hmatch]
    unfold buildRegionMapping
    rw [dictGet_dictOfList, lastVal_append, lastVal_canonicalPairs names c hc huniq]
  rw [normalize_some_eq, if_neg hs, hget]

/-- Witness for claim C6: the canonical value "EUROPE EAST" shadows the
alias key "europe east" and wins over the alias target "Europe East". -/
theorem canonical_region_identity_witness :
    normalize_region_name (some "europe east") (buildRegionMapping ["EUROPE EAST"])
      = some "EUROPE EAST" :=
  canonical_region_identity ["EUROPE EAST"] "europe east" "EUROPE EAST"
    (by decide) (by decide) (by decide) (by decide)

/-- Decidable facts about the fixed alias table: each entry's key resolves
in the lowered alias dict to the entry's target; each target's lower-cased
form is itself an alias key resolving to the same target; targets carry no
surrounding whitespace (their stripped lower-cased form is their lower-cased
form) and are non-empty. -/
theorem alias_table_facts :
    region_aliases.all (fun kv =>
      (lastVal (region_aliases.map (fun p => (pyLower p.1, p.2))) kv.1 == some kv.2)
      && (lastVal (region_aliases.map (fun p => (pyLower p.1, p.2))) (pyLower kv.2)
            == some kv.2)
      && (pyLower (pyStrip kv.2) == pyLower kv.2)
      && (!(kv.2 == ""))) = true := by decide

/-- Claim C7: every alias key of the fixed table normalizes (matched
case-insensitively on the stripped input) to its configured canonical
target, and the target itself is a fixed point of normalization, provided
the canonical reference set does not shadow the alias key or the target's
lower-cased key. -/
theorem alias_round_trip (kv : String × String) (names : List String) (s : String)
    (hkv : kv ∈ region_aliases)
    (hs : s ≠ "")
    (hkey : pyLower (pyStrip s) = kv.1)
    (hshadow1 : ∀ x ∈ names.map pyStrip, pyLower x ≠ kv.1)
    (hshadow2 : ∀ x ∈ names.map pyStrip, pyLower x ≠ pyLower kv.2) :
    normalize_region_name (some s) (buildRegionMapping names) = some kv.2 ∧
    normalize_region_name (some kv.2) (buildRegionMapping names) = some kv.2 := by
  have hfacts := List.all_eq_true.mp alias_table_facts kv hkv
  simp only [Bool.and_eq_true, beq_iff_eq, Bool.not_eq_true', beq_eq_false_iff_ne] at hfacts
  obtain ⟨⟨⟨hA, hB⟩, hC⟩, hD⟩ := hfacts
  have hget1 : dictGet (buildRegionMapping names) kv.1 = some kv.2 := by
    unfold buildRegionMapping
    rw [dictGet_dictOfList, lastVal_append, lastVal_canonicalPairs_none names kv.1 hshadow1]
    exact hA
  have hget2 : dictGet (buildRegionMapping names) (pyLower kv.2) = some kv.2 := by
    unfold buildRegionMapping
    rw [dictGet_dictOfList, lastVal_append,
      lastVal_canonicalPairs_none names (pyLower kv.2) hshadow2]
    exact hB
  constructor
  · rw [normalize_some_eq, if_neg hs, hkey, hget1]
  · rw [normalize_some_eq, if_neg hD, hC, hget2]

/-- Witness for claim C7 at the alias "EMEA" of the claim text, with an
empty canonical set (no shadowing). -/
theorem alias_round_trip_witness :
    normalize_region_name (some "EMEA") (buildRegionMapping [])
        = some "Europe Middle East Africa" ∧
    normalize_region_name (some "Europe Middle East Africa") (buildRegionMapping [])
        = some "Europe Middle East Africa" :=
  alias_round_trip ("emea", "Europe Middle East Africa") [] "EMEA"
    (by decide) (by decide) (by decide) (by decide) (by decide)

/-- Counterexample to claim C5: a whitespace-only region input does not
normalize to null.  The falsy guard runs before stripping, so " " passes
it; the stripped lower-cased form is the empty string, which is a substring
of every index key, so the substring stage returns the first entry of the
mapping — "Europe Central" — instead of null. -/
theorem whitespace_region_counterexample :
    normalize_region_name (some " ") (buildRegionMapping []) = some "Europe Central" ∧
    ¬ normalize_region_name (some " ") (buildRegionMapping []) = none := by
  exact ⟨by decide, by decide⟩

/-- Claim C5 (amended): a null/NaN region input or an (already) empty
string normalizes to null, and the normalizer is a total function of its
input (never raises); but an input whose trimmed lower-cased form is empty
while the raw string is non-empty — e.g. the whitespace-only " " — is NOT
mapped to null: it falls through to the substring stage, where the empty
stripped form matches every key, returning the mapping's first value. -/
theorem normalize_null_empty_amended (m : List (String × String)) :
    normalize_region_name none m = none ∧
    normalize_region_name (some "") m = none ∧
    normalize_region_name (some " ") (buildRegionMapping []) = some "Europe Central" := by
  refine ⟨rfl, by simp [normalize_region_name], by decide⟩

/-! ## Report and discount claims -/

/-- Counterexample to claim C8: the fact-loading report keeps one lumped
`skipped_records` counter.  A batch whose only row is rejected by the
product pre-check (empty interaction trace) and a batch whose only row is
rejected for an unresolved customer reference (non-empty trace) produce
identical reports, so the two rejection reasons are not reported as two
separate counts. -/
theorem skip_report_counterexample :
    loadFacts ctxW [txnBadProd] = loadFacts ctxW [txnBadCust] ∧
    (processRow ctxW txnBadProd).2 = [] ∧
    ¬ (processRow ctxW txnBadCust).2 = [] := by
  exact ⟨by decide, by decide, by decide⟩

/-- Claim C8 (amended): the end-of-run report of the fact-loading phase
contains the count of facts admitted and a single total count of skipped
records; every rejected row — whether for an invalid product or for an
unresolved reference — increments that same single counter, and no
per-reason breakdown is kept. -/
theorem report_single_skip_counter (ctx : EtlCtx) (rows : List XRow) :
    (loadFacts ctx rows).fact_count
        = rows.countP (fun t => (processRow ctx t).1.isAdmitted) ∧
    (loadFacts ctx rows).skipped_records
        = rows.countP (fun t => !(processRow ctx t).1.isAdmitted) := by
  induction rows with
  | nil => exact ⟨rfl, rfl⟩
  | cons t rows ih =>
    have hdef : loadFacts ctx (t :: rows)
        = rows.foldl (factStepE (pureStep ctx)) (factStepE (pureStep ctx) ⟨0, 0, []⟩ t) := rfl
    obtain ⟨j1, j2, j3⟩ :=
      loadFactsE_shift (pureStep ctx) (factStepE (pureStep ctx) ⟨0, 0, []⟩ t) rows
    obtain ⟨ih1, ih2⟩ := ih
    have ih1' : (loadFactsE (pureStep ctx) rows).fact_count
        = rows.countP (fun t => (processRow ctx t).1.isAdmitted) := ih1
    have ih2' : (loadFactsE (pureStep ctx) rows).skipped_records
        = rows.countP (fun t => !(processRow ctx t).1.isAdmitted) := ih2
    constructor
    · rw [hdef, j1, ih1', List.countP_cons]
      rcases hr : (processRow ctx t).1 with fr | _
      · simp [factStepE, pureStep, hr, RowResult.isAdmitted]
        try omega
      · simp [factStepE, pureStep, hr, RowResult.isAdmitted]
    · rw [hdef, j2, ih2', List.countP_cons]
      rcases hr : (processRow ctx t).1 with fr | _
      · simp [factStepE, pureStep, hr, RowResult.isAdmitted]
      · simp [factStepE, pureStep, hr, RowResult.isAdmitted]
        try omega

/-- Counterexample to claim C9: a transaction read with a null discount is
not defaulted to 0 anywhere — the transform passes the null through
(`total_amount` is computed from quantity and unit price alone) and the
fact loader persists the raw value, so the persisted discount measure is
null, not 0. -/
theorem null_discount_counterexample :
    (transform_sales_data srOK).discount = none ∧
    (processRow ctxW (transform_sales_data srOK)).1 = RowResult.admitted frOK ∧
    ¬ frOK.discount = some 0 := by
  exact ⟨rfl, by decide, by decide⟩

/-- Claim C9 (amended): the pipeline never defaults a null discount to 0:
the transform leaves the discount field untouched, computes `total_amount`
as quantity × unit price without consulting the discount at all, and the
fact loader persists the transaction's raw (possibly null) discount as the
fact-row measure. -/
theorem null_discount_not_defaulted (r : SalesRow) (ctx : EtlCtx) (t : XRow) (fr : FactRow)
    (h : (processRow ctx t).1 = RowResult.admitted fr) :
    (transform_sales_data r).discount = r.discount ∧
    (transform_sales_data r).total_amount = round2 (qMul (intQ r.quantity) r.unit_price) ∧
    fr.discount = t.discount := by
  refine ⟨rfl, rfl, ?_⟩
  by_cases hv : ctx.valid_products.contains t.product_id = true
  · rw [processRow_eq, hv, if_neg (by simp : ¬((!true) = true))] at h
    by_cases hc : ((pyLookup ctx.dim_product t.product_id).isNone
        || (pyLookup ctx.dim_date t.order_date).isNone
        || (pyLookup ctx.dim_customer t.customer_id).isNone
        || ((normalize_region_name t.region ctx.region_mapping).bind
              (pyLookup ctx.dim_region)).isNone) = true
    · rw [if_pos hc] at h
      exact absurd h (by simp)
    · rw [if_neg hc] at h
      have hrec : RowResult.admitted
          { product_key := pyLookup ctx.dim_product t.product_id,
            date_key := pyLookup ctx.dim_date t.order_date,
            customer_key := pyLookup ctx.dim_customer t.customer_id,
            region_key := (normalize_region_name t.region ctx.region_mapping).bind
              (pyLookup ctx.dim_region),
            quantity := t.quantity, unit_price := t.unit_price,
            discount := t.discount, total_amount := t.total_amount }
          = RowResult.admitted fr := h
      injection hrec with hrec
      rw [← hrec]
  · rw [Bool.not_eq_true] at hv
    rw [processRow_eq, hv] at h
    exact absurd h (by simp)

/-- Witness for claim C9 (amended) at the sample null-discount
transaction. -/
theorem null_discount_not_defaulted_witness :
    (transform_sales_data srOK).discount = srOK.discount ∧
    (transform_sales_data srOK).total_amount
        = round2 (qMul (intQ srOK.quantity) srOK.unit_price) ∧
    frOK.discount = txnOK.discount :=
  null_discount_not_defaulted srOK ctxW txnOK frOK (by decide)
